import Mathlib

/-!
Shallow embedding of the host-side numeric and orchestration logic of the
SpMV benchmark (src/9781849694520_code/4520OT_Code/src/Ch8/SpMV/Spmv.c).

Floating-point values are modelled as exact rationals.  The only IEEE-754
behaviours the verification logic depends on are division by zero and the
ordered comparison against the tolerance, so the embedding makes those two
operations explicit on an extended value type (`FPVal`, `fdiv`, `fgt`):
dividing a positive number by zero yields positive infinity, dividing zero
by zero yields NaN, and any ordered comparison involving NaN is false.
All other arithmetic (subtraction, absolute value, division by a non-zero
denominator) is modelled exactly.
-/

/-- Result domain of a floating-point division: a finite (exact rational)
value, one of the two infinities, or NaN. -/
inductive FPVal where
  | fin (q : ℚ)
  | pinf
  | ninf
  | nan
deriving DecidableEq

/-- IEEE-style division on the rational model: division by zero produces
NaN when the numerator is also zero, and a signed infinity otherwise. -/
def fdiv (a b : ℚ) : FPVal :=
  if b = 0 then
    if a = 0 then FPVal.nan
    else if 0 < a then FPVal.pinf
    else FPVal.ninf
  else FPVal.fin (a / b)

/-- IEEE-style ordered comparison `x > tol`: false for NaN, false for
negative infinity, true for positive infinity. -/
def fgt (x : FPVal) (tol : ℚ) : Bool :=
  match x with
  | FPVal.fin q => decide (tol < q)
  | FPVal.pinf => true
  | FPVal.ninf => false
  | FPVal.nan => false

/-- MAX_RELATIVE_ERROR, Spmv.c line 14 (`#define MAX_RELATIVE_ERROR 1e-10`). -/
def MAX_RELATIVE_ERROR : ℚ := 1 / 10000000000

/-- The per-entry comparison of verifyResults, Spmv.c lines 77-78:
`fabs(cpuResults[i] - gpuResults[i]) / cpuResults[i] > MAX_RELATIVE_ERROR`
with the tolerance abstracted as a parameter.  Note the denominator is the
signed reference value, not its absolute value. -/
def relMismatch (tol ref cand : ℚ) : Bool :=
  fgt (fdiv |ref - cand| ref) tol

/-- The verification loop of verifyResults, Spmv.c lines 74-85, with the
tolerance abstracted: `passed` starts at 1 and is set to 0 at every index
whose relative error exceeds the tolerance; the loop never resets `passed`
to 1 and never exits early. -/
def verifyLoop (tol : ℚ) (cpuResults gpuResults : List ℚ) (size : ℕ) : Bool :=
  (List.range size).foldl
    (fun passed i =>
      if relMismatch tol (cpuResults.getD i 0) (gpuResults.getD i 0) then false
      else passed)
    true

/-- verifyResults, Spmv.c lines 70-96: the loop above run at the fixed
tolerance MAX_RELATIVE_ERROR; the function returns the final `passed` flag
(and nothing else: no mismatch index is computed). -/
def verifyResults (cpuResults gpuResults : List ℚ) (size : ℕ) : Bool :=
  verifyLoop MAX_RELATIVE_ERROR cpuResults gpuResults size

/-- spmvCpu, Spmv.c lines 37-51: for each row i below dim, accumulate
`t += val[j] * vec[cols[j]]` for j from rowDelimiters[i] (inclusive) to
rowDelimiters[i+1] (exclusive) in ascending order, starting from t = 0,
and write the total to out[i]. -/
def spmvCpu (val : List ℚ) (cols rowDelimiters : List ℕ) (vec : List ℚ)
    (dim : ℕ) : List ℚ :=
  (List.range dim).map (fun i =>
    (List.range' (rowDelimiters.getD i 0)
        (rowDelimiters.getD (i + 1) 0 - rowDelimiters.getD i 0)).foldl
      (fun t j => t + val.getD j 0 * vec.getD (cols.getD j 0) 0) 0)

/-- The CSR invariant assumed by the benchmark (Spmv.c lines 22-31 describe
it for spmvCpu): rowDelimiters has numRows+1 entries, starts at 0, ends one
past the last element, is non-decreasing, and every column index is in
range. -/
def CSRWellFormed (val : List ℚ) (cols rowDelimiters : List ℕ)
    (numRows numCols : ℕ) : Prop :=
  rowDelimiters.length = numRows + 1 ∧
  rowDelimiters.getD 0 0 = 0 ∧
  rowDelimiters.getD numRows 0 = val.length ∧
  cols.length = val.length ∧
  (∀ i, i < numRows → rowDelimiters.getD i 0 ≤ rowDelimiters.getD (i + 1) 0) ∧
  (∀ j, j < cols.length → cols.getD j 0 < numCols)

instance (val : List ℚ) (cols rowDelimiters : List ℕ) (numRows numCols : ℕ) :
    Decidable (CSRWellFormed val cols rowDelimiters numRows numCols) := by
  unfold CSRWellFormed
  infer_instance

/-! ## Helper lemmas about the verification loop -/

theorem foldl_and_eq_all (p : ℕ → Bool) (l : List ℕ) (acc : Bool) :
    l.foldl (fun passed i => if p i then false else passed) acc
      = (acc && l.all fun i => !p i) := by
  induction l generalizing acc with
  | nil => simp
  | cons a l ih =>
    simp only [List.foldl_cons, List.all_cons, ih]
    cases h : p a <;> simp [h]

theorem verifyLoop_eq_true_iff (tol : ℚ) (cpu gpu : List ℚ) (size : ℕ) :
    verifyLoop tol cpu gpu size = true ↔
      ∀ i, i < size → relMismatch tol (cpu.getD i 0) (gpu.getD i 0) = false := by
  unfold verifyLoop
  rw [foldl_and_eq_all]
  simp

theorem relMismatch_zero_ref (tol cand : ℚ) :
    relMismatch tol 0 cand = true ↔ cand ≠ 0 := by
  unfold relMismatch fdiv fgt
  rcases eq_or_ne cand 0 with h | h
  · simp [h]
  · have h1 : 0 < |0 - cand| := by
      rw [zero_sub, abs_neg]
      exact abs_pos.mpr h
    simp [h, h1.ne.symm, h1]

theorem relMismatch_zero_ref_false (tol cand : ℚ) :
    relMismatch tol 0 cand = false ↔ cand = 0 := by
  rw [← Bool.not_eq_true, relMismatch_zero_ref, not_not]

theorem relMismatch_nonzero_ref (tol ref cand : ℚ) (h : ref ≠ 0) :
    relMismatch tol ref cand = decide (tol < |ref - cand| / ref) := by
  unfold relMismatch fdiv fgt
  simp [h]

theorem getD_map_range {α : Type} (f : ℕ → α) (d : α) {n i : ℕ} (h : i < n) :
    ((List.range n).map f).getD i d = f i := by
  rw [List.getD_eq_getElem?_getD, List.getElem?_map, List.getElem?_range h]
  rfl

theorem foldl_add_eq_sum (f : ℕ → ℚ) (a n : ℕ) (acc : ℚ) :
    (List.range' a n).foldl (fun t j => t + f j) acc
      = acc + ∑ j ∈ Finset.Ico a (a + n), f j := by
  induction n generalizing a acc with
  | zero => simp
  | succ n ih =>
    rw [List.range'_succ, List.foldl_cons, ih]
    rw [Finset.sum_eq_sum_Ico_succ_bot (by omega : a < a + (n + 1))]
    have : a + (n + 1) = (a + 1) + n := by omega
    rw [this]
    ring_nf

/-! ## Claim theorems about spmvCpu and verifyResults -/

/-- C1: for every CSR matrix satisfying the CSR invariant and every dense
vector, spmvCpu writes to out[i] (for i below numRows) the sum over j in
[rowDelimiters[i], rowDelimiters[i+1]) of val[j] * vec[cols[j]], and that
value is obtained as the index-ascending left fold starting from 0. -/
theorem spmvCpu_row_correct (val : List ℚ) (cols rowDelimiters : List ℕ)
    (vec : List ℚ) (numRows numCols i : ℕ)
    (hwf : CSRWellFormed val cols rowDelimiters numRows numCols)
    (hi : i < numRows) :
    (spmvCpu val cols rowDelimiters vec numRows).getD i 0
      = ∑ j ∈ Finset.Ico (rowDelimiters.getD i 0) (rowDelimiters.getD (i + 1) 0),
          val.getD j 0 * vec.getD (cols.getD j 0) 0 ∧
    (spmvCpu val cols rowDelimiters vec numRows).getD i 0
      = (List.range' (rowDelimiters.getD i 0)
          (rowDelimiters.getD (i + 1) 0 - rowDelimiters.getD i 0)).foldl
          (fun t j => t + val.getD j 0 * vec.getD (cols.getD j 0) 0) 0 := by
  have hmono := hwf.2.2.2.2.1 i hi
  have h1 : (spmvCpu val cols rowDelimiters vec numRows).getD i 0
      = (List.range' (rowDelimiters.getD i 0)
          (rowDelimiters.getD (i + 1) 0 - rowDelimiters.getD i 0)).foldl
          (fun t j => t + val.getD j 0 * vec.getD (cols.getD j 0) 0) 0 := by
    unfold spmvCpu
    exact getD_map_range _ _ hi
  refine ⟨?_, h1⟩
  rw [h1, foldl_add_eq_sum, zero_add, Nat.add_sub_cancel' hmono]

/-- C1 witness: the 4-row diagonal matrix of end-to-end scenario 1. -/
theorem spmvCpu_row_correct_witness :
    CSRWellFormed [(1 : ℚ), 2, 3, 4] [0, 1, 2, 3] [0, 1, 2, 3, 4] 4 4 ∧
    2 < 4 ∧
    ((spmvCpu [(1 : ℚ), 2, 3, 4] [0, 1, 2, 3] [0, 1, 2, 3, 4] [1, 1, 1, 1] 4).getD 2 0
      = ∑ j ∈ Finset.Ico (([0, 1, 2, 3, 4] : List ℕ).getD 2 0)
            (([0, 1, 2, 3, 4] : List ℕ).getD 3 0),
          ([(1 : ℚ), 2, 3, 4]).getD j 0 * ([(1 : ℚ), 1, 1, 1]).getD (([0, 1, 2, 3] : List ℕ).getD j 0) 0 ∧
     (spmvCpu [(1 : ℚ), 2, 3, 4] [0, 1, 2, 3] [0, 1, 2, 3, 4] [1, 1, 1, 1] 4).getD 2 0
      = (List.range' (([0, 1, 2, 3, 4] : List ℕ).getD 2 0)
          (([0, 1, 2, 3, 4] : List ℕ).getD 3 0 - ([0, 1, 2, 3, 4] : List ℕ).getD 2 0)).foldl
          (fun t j => t + ([(1 : ℚ), 2, 3, 4]).getD j 0 * ([(1 : ℚ), 1, 1, 1]).getD (([0, 1, 2, 3] : List ℕ).getD j 0) 0) 0) :=
  ⟨by decide, by decide,
   spmvCpu_row_correct [(1 : ℚ), 2, 3, 4] [0, 1, 2, 3] [0, 1, 2, 3, 4]
     [1, 1, 1, 1] 4 4 2 (by decide) (by decide)⟩

/-- C2 counterexample: at reference -1 and candidate 5 the relative error
with an absolute-value denominator is 6, far above the tolerance, so the
claimed rule classifies entry 0 as a mismatch and the overall result as
failed; the code nevertheless passes, because Spmv.c line 77 divides by the
signed reference (no fabs on the denominator), giving -6. -/
theorem verifyResults_neg_ref_counterexample :
    verifyResults [(-1 : ℚ)] [(5 : ℚ)] 1 = true ∧
    MAX_RELATIVE_ERROR < |(-1 : ℚ) - 5| / |(-1 : ℚ)| := by
  constructor
  · norm_num [verifyResults, verifyLoop, relMismatch, fdiv, fgt,
      MAX_RELATIVE_ERROR, List.range_succ]
  · norm_num [MAX_RELATIVE_ERROR]

/-- C2 (amended): verifyResults treats entry i as a mismatch iff
|reference[i] - candidate[i]| divided by the SIGNED reference entry exceeds
the tolerance 1e-10 (so an entry with a negative reference never
mismatches, and an entry with a zero reference mismatches exactly when the
candidate differs from it); the overall result is passed exactly when no
entry mismatches. -/
theorem verifyResults_passed_iff (cpu gpu : List ℚ) (size : ℕ) :
    verifyResults cpu gpu size = true ↔
      ∀ i, i < size →
        ((cpu.getD i 0 = 0 → gpu.getD i 0 = 0) ∧
         (cpu.getD i 0 ≠ 0 →
            |cpu.getD i 0 - gpu.getD i 0| / cpu.getD i 0 ≤ MAX_RELATIVE_ERROR)) := by
  rw [verifyResults, verifyLoop_eq_true_iff]
  refine forall_congr' fun i => imp_congr_right fun _ => ?_
  rcases eq_or_ne (cpu.getD i 0) 0 with h | h
  · rw [h, relMismatch_zero_ref_false]
    simp
  · rw [relMismatch_nonzero_ref _ _ _ h, decide_eq_false_iff_not, not_lt]
    constructor
    · intro hle
      exact ⟨fun h0 => absurd h0 h, fun _ => hle⟩
    · intro hand
      exact hand.2 h

/-- C7: for an index whose reference entry is zero, the verifier flags a
mismatch exactly when the candidate entry differs from it (the division
|diff|/0 yields NaN when diff = 0, which compares false, and positive
infinity otherwise, which compares true), and such a mismatch makes the
whole verification fail. -/
theorem verifyResults_zero_ref (cpu gpu : List ℚ) (size i : ℕ)
    (hi : i < size) (h0 : cpu.getD i 0 = 0) :
    (relMismatch MAX_RELATIVE_ERROR (cpu.getD i 0) (gpu.getD i 0) = true ↔
      gpu.getD i 0 ≠ cpu.getD i 0) ∧
    (gpu.getD i 0 ≠ cpu.getD i 0 → verifyResults cpu gpu size = false) := by
  constructor
  · rw [h0, relMismatch_zero_ref]
  · intro hne
    cases hv : verifyResults cpu gpu size with
    | false => rfl
    | true =>
      rw [verifyResults, verifyLoop_eq_true_iff] at hv
      have := hv i hi
      rw [h0, relMismatch_zero_ref_false] at this
      rw [h0] at hne
      exact absurd this hne

/-- C7 witness: reference entry 0 against candidate entry 1. -/
theorem verifyResults_zero_ref_witness :
    0 < 1 ∧ ([(0 : ℚ)]).getD 0 0 = 0 ∧
    ((relMismatch MAX_RELATIVE_ERROR (([(0 : ℚ)]).getD 0 0) (([(1 : ℚ)]).getD 0 0) = true ↔
       ([(1 : ℚ)]).getD 0 0 ≠ ([(0 : ℚ)]).getD 0 0) ∧
     (([(1 : ℚ)]).getD 0 0 ≠ ([(0 : ℚ)]).getD 0 0 →
       verifyResults [(0 : ℚ)] [(1 : ℚ)] 1 = false)) :=
  ⟨by decide, by rfl, verifyResults_zero_ref [(0 : ℚ)] [(1 : ℚ)] 1 0 (by decide) (by rfl)⟩

/-- C8 counterexample: with tolerance 1/1000, reference -2 and candidate 7
the relative error |ref - cand| / |ref| is 4.5, above the tolerance, so
the claim says the outcome is failed with first mismatch index 0; the code
returns passed (the signed division gives -4.5), and it returns only this
boolean, computing no mismatch index at all. -/
theorem verifyLoop_neg_ref_counterexample :
    verifyLoop (1 / 1000) [(-2 : ℚ)] [(7 : ℚ)] 1 = true ∧
    (1 : ℚ) / 1000 < |(-2 : ℚ) - 7| / |(-2 : ℚ)| := by
  constructor
  · norm_num [verifyLoop, relMismatch, fdiv, fgt, List.range_succ]
  · norm_num

/-- C8 (amended): the verifier returns only a passed flag (it computes no
firstMismatchIndex); the outcome is failed exactly when some index below
size satisfies the per-entry mismatch test of the code, i.e.
|reference[i] - candidate[i]| divided by the signed reference[i] exceeds
the tolerance under the IEEE division and comparison semantics. -/
theorem verifyLoop_failed_iff (tol : ℚ) (cpu gpu : List ℚ) (size : ℕ) :
    verifyLoop tol cpu gpu size = false ↔
      ∃ i, i < size ∧ relMismatch tol (cpu.getD i 0) (gpu.getD i 0) = true := by
  constructor
  · intro h
    by_contra hno
    push_neg at hno
    have hall : ∀ i, i < size → relMismatch tol (cpu.getD i 0) (gpu.getD i 0) = false :=
      fun i hi => Bool.eq_false_iff.mpr (hno i hi)
    rw [(verifyLoop_eq_true_iff tol cpu gpu size).mpr hall] at h
    cases h
  · rintro ⟨i, hi, hm⟩
    cases hv : verifyLoop tol cpu gpu size with
    | false => rfl
    | true =>
      have hfalse := (verifyLoop_eq_true_iff tol cpu gpu size).mp hv i hi
      rw [hm] at hfalse
      cases hfalse

/-- C9: comparing any vector against itself passes for every nonnegative
tolerance: each difference is 0, so a nonzero reference gives relative
error 0, which never exceeds a nonnegative tolerance, and a zero reference
gives 0/0 = NaN, whose comparison is false as well. -/
theorem verifyLoop_self_passes (v : List ℚ) (size : ℕ) (tol : ℚ)
    (htol : 0 ≤ tol) :
    verifyLoop tol v v size = true := by
  rw [verifyLoop_eq_true_iff]
  intro i _
  rcases eq_or_ne (v.getD i 0) 0 with hz | hz
  · rw [hz, relMismatch_zero_ref_false]
  · rw [relMismatch_nonzero_ref _ _ _ hz, decide_eq_false_iff_not, not_lt,
      sub_self, abs_zero, zero_div]
    exact htol

/-- C9 witness: self-comparison of a two-entry vector (one entry zero) at
tolerance 1. -/
theorem verifyLoop_self_passes_witness :
    (0 : ℚ) ≤ 1 ∧ verifyLoop 1 [(2 : ℚ), 0] [(2 : ℚ), 0] 2 = true :=
  ⟨by decide, verifyLoop_self_passes [(2 : ℚ), 0] 2 1 (by decide)⟩

/-! ## Padded row count (RunTest, Spmv.c line 822) -/

/-- PAD_FACTOR.  Modelled from the spec: the macro is defined in Spmv.h,
which is not among the available sources; the spec fixes the pad factor
used by RunTest at 32. -/
def PAD_FACTOR : ℕ := 32

/-- The padded row count of RunTest, Spmv.c line 822:
`int paddedSize = numRows + (PAD_FACTOR - numRows % PAD_FACTOR);`
with the pad factor abstracted as a parameter. -/
def paddedSizeCalc (numRows padFactor : ℕ) : ℕ :=
  numRows + (padFactor - numRows % padFactor)

/-- C4 counterexample: for 32 rows and pad factor 32 (an exact multiple)
the source computes 32 + (32 - 0) = 64, not the unchanged 32 the claim
states. -/
theorem paddedSizeCalc_counterexample :
    32 % PAD_FACTOR = 0 ∧ paddedSizeCalc 32 PAD_FACTOR = 64 ∧ (64 : ℕ) ≠ 32 := by
  decide

/-- C4 (amended): the padded row count always equals
numRows + (padFactor - numRows % padFactor); when numRows is not a
multiple of padFactor this is the next multiple of padFactor above
numRows, and when numRows is an exact multiple the source still adds a
full extra pad block, giving numRows + padFactor.  In particular, with
padFactor = 32 a 33-row matrix yields a 64-row padded matrix. -/
theorem paddedSizeCalc_characterization (numRows padFactor : ℕ)
    (hp : 0 < padFactor) :
    paddedSizeCalc numRows padFactor
      = numRows + (padFactor - numRows % padFactor) ∧
    paddedSizeCalc numRows padFactor % padFactor = 0 ∧
    numRows < paddedSizeCalc numRows padFactor ∧
    paddedSizeCalc numRows padFactor ≤ numRows + padFactor ∧
    (numRows % padFactor = 0 →
      paddedSizeCalc numRows padFactor = numRows + padFactor) ∧
    paddedSizeCalc 33 32 = 64 := by
  have hmod : numRows % padFactor < padFactor := Nat.mod_lt _ hp
  have hdiv := Nat.div_add_mod numRows padFactor
  refine ⟨rfl, ?_, ?_, ?_, ?_, by decide⟩
  · have hform : paddedSizeCalc numRows padFactor
        = padFactor * (numRows / padFactor + 1) := by
      unfold paddedSizeCalc
      rw [Nat.mul_add, Nat.mul_one]
      omega
    rw [hform]
    exact Nat.mul_mod_right _ _
  · unfold paddedSizeCalc
    omega
  · unfold paddedSizeCalc
    omega
  · intro h0
    unfold paddedSizeCalc
    omega

/-- C4 witness: 33 rows with pad factor 32. -/
theorem paddedSizeCalc_characterization_witness :
    0 < 32 ∧
    (paddedSizeCalc 33 32 = 33 + (32 - 33 % 32) ∧
     paddedSizeCalc 33 32 % 32 = 0 ∧
     33 < paddedSizeCalc 33 32 ∧
     paddedSizeCalc 33 32 ≤ 33 + 32 ∧
     (33 % 32 = 0 → paddedSizeCalc 33 32 = 33 + 32) ∧
     paddedSizeCalc 33 32 = 64) :=
  ⟨by decide, paddedSizeCalc_characterization 33 32 (by decide)⟩

/-! ## RunTest wiring of the CSR configurations (Spmv.c lines 816-871) -/

/-- The size-relevant arguments RunTest hands to one csrTest invocation:
the row count passed as `numRows`, the non-zero count passed as
`numNonZeroes`, the `padded` flag, and the allocation length of the
row-delimiter array given to that call. -/
structure CsrCall where
  numRows : ℕ
  numNonZeroes : ℕ
  padded : Bool
  rowDelimLen : ℕ
deriving DecidableEq

/-- The two csrTest invocations of RunTest (Spmv.c lines 834-844 and
854-864, identical argument wiring on both image-support branches): the
unpadded call gets (h_val, h_cols, h_rowDelimiters, numRows, nItems,
padded = false) and the padded call gets (h_valPad, h_colsPad,
h_rowDelimitersPad, numRows, nItemsPadded, padded = true).  Both
row-delimiter arrays are allocated with numRows + 1 entries (lines 783 and
818). -/
def runTestCsrCalls (numRows nItems nItemsPadded : ℕ) : CsrCall × CsrCall :=
  (⟨numRows, nItems, false, numRows + 1⟩,
   ⟨numRows, nItemsPadded, true, numRows + 1⟩)

/-- scalarGlobalWSize in csrTest, Spmv.c line 555: the kernel dispatch
size is the numRows argument. -/
def csrScalarGlobalWSize (numRows : ℕ) : ℕ := numRows

/-- The element count of the d_out read-back in csrTest, Spmv.c line 576. -/
def csrReadBackLen (numRows : ℕ) : ℕ := numRows

/-- The vector length handed to verifyResults in csrTest, Spmv.c line 585. -/
def csrVerifyLen (numRows : ℕ) : ℕ := numRows

/-- C10: RunTest invokes the padded-CSR configuration with the original
unpadded row count: the padded call's numRows equals the original numRows
(which is strictly below the padded row count of line 822), its
row-delimiter array has numRows + 1 entries, csrTest therefore dispatches,
reads back and verifies numRows elements for it, and the call differs from
the unpadded call only in the non-zero count (and the padded flag). -/
theorem runTest_padded_call_uses_numRows
    (numRows nItems nItemsPadded padFactor : ℕ) (hp : 0 < padFactor) :
    (runTestCsrCalls numRows nItems nItemsPadded).2.numRows = numRows ∧
    (runTestCsrCalls numRows nItems nItemsPadded).2.numRows
      ≠ paddedSizeCalc numRows padFactor ∧
    (runTestCsrCalls numRows nItems nItemsPadded).2.rowDelimLen = numRows + 1 ∧
    csrScalarGlobalWSize (runTestCsrCalls numRows nItems nItemsPadded).2.numRows
      = numRows ∧
    csrReadBackLen (runTestCsrCalls numRows nItems nItemsPadded).2.numRows
      = numRows ∧
    csrVerifyLen (runTestCsrCalls numRows nItems nItemsPadded).2.numRows
      = numRows ∧
    (runTestCsrCalls numRows nItems nItemsPadded).2.numRows
      = (runTestCsrCalls numRows nItems nItemsPadded).1.numRows ∧
    (runTestCsrCalls numRows nItems nItemsPadded).2.rowDelimLen
      = (runTestCsrCalls numRows nItems nItemsPadded).1.rowDelimLen ∧
    (runTestCsrCalls numRows nItems nItemsPadded).2.numNonZeroes = nItemsPadded ∧
    (runTestCsrCalls numRows nItems nItemsPadded).1.numNonZeroes = nItems := by
  have hlt : numRows < paddedSizeCalc numRows padFactor := by
    have := Nat.mod_lt numRows hp
    unfold paddedSizeCalc
    omega
  exact ⟨rfl, Nat.ne_of_lt hlt, rfl, rfl, rfl, rfl, rfl, rfl, rfl, rfl⟩

/-- C10 witness: 33 rows, 10 non-zeroes, 12 padded non-zeroes, pad
factor 32. -/
theorem runTest_padded_call_uses_numRows_witness :
    0 < 32 ∧
    ((runTestCsrCalls 33 10 12).2.numRows = 33 ∧
     (runTestCsrCalls 33 10 12).2.numRows ≠ paddedSizeCalc 33 32 ∧
     (runTestCsrCalls 33 10 12).2.rowDelimLen = 33 + 1 ∧
     csrScalarGlobalWSize (runTestCsrCalls 33 10 12).2.numRows = 33 ∧
     csrReadBackLen (runTestCsrCalls 33 10 12).2.numRows = 33 ∧
     csrVerifyLen (runTestCsrCalls 33 10 12).2.numRows = 33 ∧
     (runTestCsrCalls 33 10 12).2.numRows = (runTestCsrCalls 33 10 12).1.numRows ∧
     (runTestCsrCalls 33 10 12).2.rowDelimLen
       = (runTestCsrCalls 33 10 12).1.rowDelimLen ∧
     (runTestCsrCalls 33 10 12).2.numNonZeroes = 12 ∧
     (runTestCsrCalls 33 10 12).1.numNonZeroes = 10) :=
  ⟨by decide, runTest_padded_call_uses_numRows 33 10 12 32 (by decide)⟩

/-! ## Pass-loop control flow of the benchmark (Spmv.c lines 289-329,
558-596, 636-672).  The device results are external, so each pass's
verification outcome is abstracted as a boolean function of the pass
index; a record is the index of a pass whose throughput results were
added to the result database. -/

/-- One measured pass loop: pass k runs the kernel, verifies, and on
verification failure returns from the whole test function immediately
(recording nothing for that pass); otherwise it records the pass and
continues.  `passLoop ok n k` is the list of recorded pass indices for n
remaining passes starting at index k. -/
def passLoop (ok : ℕ → Bool) : ℕ → ℕ → List ℕ
  | 0, _ => []
  | n + 1, k => if ok k then k :: passLoop ok n (k + 1) else []

/-- ellPackTest's recorded passes (Spmv.c lines 289-329; the verification
failure at lines 314-316 returns before the two AddResult calls). -/
def ellPackRecords (passes : ℕ) (ok : ℕ → Bool) : List ℕ :=
  passLoop ok passes 0

/-- csrTest's recorded passes, tagged false for the scalar kernel loop
(lines 558-596) and true for the vector kernel loop (lines 636-672).  A
scalar-pass verification failure returns from csrTest (line 587), so the
vector loop never runs; if the device work-group limit is below 32 the
vector kernel is skipped entirely (lines 606-627); a vector-pass failure
returns at line 664. -/
def csrTestRecords (passes maxLocal : ℕ) (scalarOk vectorOk : ℕ → Bool) :
    List (Bool × ℕ) :=
  let s := (passLoop scalarOk passes 0).map (fun j => (false, j))
  if s.length < passes then s
  else if maxLocal < 32 then s
  else s ++ (passLoop vectorOk passes 0).map (fun j => (true, j))

/-- RunTest's three configurations (Spmv.c lines 831-872): unpadded CSR,
padded CSR, then ELLPACKR, invoked unconditionally in sequence; each
test function returns to RunTest on its own failures, so the outcome of
one configuration is passed to none of the others. -/
def runTestRecords (passes maxLocal : ℕ)
    (s1 v1 s2 v2 e : ℕ → Bool) :
    List (Bool × ℕ) × List (Bool × ℕ) × List ℕ :=
  (csrTestRecords passes maxLocal s1 v1,
   csrTestRecords passes maxLocal s2 v2,
   ellPackRecords passes e)

theorem passLoop_mem {ok : ℕ → Bool} :
    ∀ n k j, j ∈ passLoop ok n k → k ≤ j ∧ ∀ i, k ≤ i → i ≤ j → ok i = true := by
  intro n
  induction n with
  | zero =>
    intro k j h
    cases h
  | succ n ih =>
    intro k j h
    unfold passLoop at h
    by_cases hk : ok k = true
    · rw [if_pos hk] at h
      rcases List.mem_cons.mp h with rfl | h
      · exact ⟨le_refl _, fun i h1 h2 => by rw [Nat.le_antisymm h2 h1]; exact hk⟩
      · rcases ih (k + 1) j h with ⟨h1, h2⟩
        refine ⟨by omega, fun i hi1 hi2 => ?_⟩
        rcases Nat.eq_or_lt_of_le hi1 with rfl | hlt
        · exact hk
        · exact h2 i (by omega) hi2
    · rw [if_neg hk] at h
      cases h

theorem passLoop_lt_of_fail {ok : ℕ → Bool} {m : ℕ} (hm : ok m = false)
    {n k j : ℕ} (hkm : k ≤ m) (hj : j ∈ passLoop ok n k) : j < m := by
  rcases passLoop_mem n k j hj with ⟨h1, h2⟩
  by_contra hge
  push_neg at hge
  rw [h2 m hkm hge] at hm
  cases hm

theorem passLoop_length_lt_of_fail {ok : ℕ → Bool} {m : ℕ} (hm : ok m = false) :
    ∀ n k, k ≤ m → m < k + n → (passLoop ok n k).length < n := by
  intro n
  induction n with
  | zero =>
    intro k _ h
    omega
  | succ n ih =>
    intro k hkm hmn
    unfold passLoop
    by_cases hk : ok k = true
    · rw [if_pos hk]
      have hne : k ≠ m := fun h => by rw [h, hm] at hk; cases hk
      have := ih (k + 1) (by omega) (by omega)
      simpa using this
    · rw [if_neg hk]
      simp

theorem mem_tagged {t b : Bool} {j : ℕ} {l : List ℕ}
    (h : (t, j) ∈ l.map (fun x => (b, x))) : t = b ∧ j ∈ l := by
  rcases List.mem_map.mp h with ⟨a, ha, heq⟩
  cases heq
  exact ⟨rfl, ha⟩

/-- C5: if verification of pass k fails in a configuration's pass loop,
no throughput result is recorded for pass k or any later pass of that
configuration (a scalar-loop failure in csrTest also prevents every
vector-loop record), while the sibling configurations RunTest invokes
are unaffected: the padded-CSR and ELLPACKR components of the run are
exactly their own records, whatever the other configurations report. -/
theorem runTest_failfast (passes maxLocal k : ℕ)
    (s1 v1 s2 v2 e : ℕ → Bool) (hk : k < passes) :
    (s1 k = false →
      ∀ t j, (t, j) ∈ (runTestRecords passes maxLocal s1 v1 s2 v2 e).1 → j < k) ∧
    (v1 k = false →
      ∀ j, (true, j) ∈ (runTestRecords passes maxLocal s1 v1 s2 v2 e).1 → j < k) ∧
    (e k = false →
      ∀ j, j ∈ (runTestRecords passes maxLocal s1 v1 s2 v2 e).2.2 → j < k) ∧
    (runTestRecords passes maxLocal s1 v1 s2 v2 e).2.1
      = csrTestRecords passes maxLocal s2 v2 ∧
    (runTestRecords passes maxLocal s1 v1 s2 v2 e).2.2
      = ellPackRecords passes e := by
  refine ⟨?_, ?_, ?_, rfl, rfl⟩
  · intro hs t j hmem
    have hlen : ((passLoop s1 passes 0).map (fun j => (false, j))).length < passes := by
      rw [List.length_map]
      exact passLoop_length_lt_of_fail hs passes 0 (Nat.zero_le _) (by omega)
    unfold runTestRecords csrTestRecords at hmem
    simp only [hlen, if_pos] at hmem
    rcases mem_tagged hmem with ⟨_, hj⟩
    exact passLoop_lt_of_fail hs (Nat.zero_le _) hj
  · intro hv j hmem
    unfold runTestRecords csrTestRecords at hmem
    by_cases h1 : ((passLoop s1 passes 0).map (fun j => (false, j))).length < passes
    · rw [if_pos h1] at hmem
      rcases mem_tagged hmem with ⟨hfalse, _⟩
      cases hfalse
    · rw [if_neg h1] at hmem
      by_cases h2 : maxLocal < 32
      · rw [if_pos h2] at hmem
        rcases mem_tagged hmem with ⟨hfalse, _⟩
        cases hfalse
      · rw [if_neg h2] at hmem
        rcases List.mem_append.mp hmem with hmem | hmem
        · rcases mem_tagged hmem with ⟨hfalse, _⟩
          cases hfalse
        · rcases mem_tagged hmem with ⟨_, hj⟩
          exact passLoop_lt_of_fail hv (Nat.zero_le _) hj
  · intro he j hmem
    exact passLoop_lt_of_fail he (Nat.zero_le _) hmem

/-- C5 witness: two passes with every verification failing at pass 0. -/
theorem runTest_failfast_witness :
    0 < 2 ∧
    (((fun _ => false) 0 = false →
       ∀ t j, (t, j) ∈ (runTestRecords 2 64 (fun _ => false) (fun _ => false)
           (fun _ => true) (fun _ => true) (fun _ => false)).1 → j < 0) ∧
     ((fun _ => false) 0 = false →
       ∀ j, (true, j) ∈ (runTestRecords 2 64 (fun _ => false) (fun _ => false)
           (fun _ => true) (fun _ => true) (fun _ => false)).1 → j < 0) ∧
     ((fun _ => false) 0 = false →
       ∀ j, j ∈ (runTestRecords 2 64 (fun _ => false) (fun _ => false)
           (fun _ => true) (fun _ => true) (fun _ => false)).2.2 → j < 0) ∧
     (runTestRecords 2 64 (fun _ => false) (fun _ => false)
         (fun _ => true) (fun _ => true) (fun _ => false)).2.1
       = csrTestRecords 2 64 (fun _ => true) (fun _ => true) ∧
     (runTestRecords 2 64 (fun _ => false) (fun _ => false)
         (fun _ => true) (fun _ => true) (fun _ => false)).2.2
       = ellPackRecords 2 (fun _ => false)) :=
  ⟨by decide,
   runTest_failfast 2 64 0 (fun _ => false) (fun _ => false)
     (fun _ => true) (fun _ => true) (fun _ => false) (by decide)⟩

/-! ## Resource release on the exit paths of the test functions -/

/-- The resources a test function acquires in its setup phase. -/
inductive Res where
  | prog
  | kernScalar
  | kernVector
  | kernEllpackr
  | dVal
  | dCols
  | dVec
  | dOut
  | dRowMeta
  | hRowLengths
  | hValcm
  | hColscm
deriving DecidableEq

/-- Resources ellPackTest acquires after a successful build (Spmv.c lines
165-220, 267): host arrays h_rowLengths, h_valcm, h_colscm, device
buffers d_val, d_cols, d_vec, d_out, d_rowLengths, the program and the
ellpackr kernel. -/
def ellPackAllocated : List Res :=
  [Res.prog, Res.kernEllpackr, Res.dVal, Res.dCols, Res.dVec, Res.dOut,
   Res.dRowMeta, Res.hRowLengths, Res.hValcm, Res.hColscm]

/-- Resources ellPackTest releases on the path actually taken: the
verification-failure `return` at lines 314-316 precedes every release, so
that path frees nothing; the normal path runs lines 331-349, releasing
the program, the kernel and the five device buffers, and then executes
`delete[] h_rowLengths, h_valcm, h_colscm;` (line 349), which by C++
comma-operator semantics deletes only h_rowLengths. -/
def ellPackReleased (passes : ℕ) (ok : ℕ → Bool) : List Res :=
  if (passLoop ok passes 0).length < passes then []
  else [Res.prog, Res.kernEllpackr, Res.dRowMeta, Res.dVec, Res.dOut,
        Res.dVal, Res.dCols, Res.hRowLengths]

/-- Resources csrTest acquires after a successful build (Spmv.c lines
395, 422-450, 511, 527): device buffers d_val, d_cols, d_vec, d_out,
d_rowDelimiters, the program and both kernels. -/
def csrAllocated : List Res :=
  [Res.prog, Res.kernScalar, Res.kernVector, Res.dVal, Res.dCols,
   Res.dVec, Res.dOut, Res.dRowMeta]

/-- Resources csrTest releases on the path actually taken: a scalar-pass
verification failure returns at line 587 before any release; the
work-group-size skip path (lines 606-627) releases everything before
returning; a vector-pass verification failure returns at line 664 before
any release; the normal path releases everything (lines 674-690). -/
def csrReleased (passes maxLocal : ℕ) (scalarOk vectorOk : ℕ → Bool) :
    List Res :=
  if (passLoop scalarOk passes 0).length < passes then []
  else if maxLocal < 32 then
    [Res.dRowMeta, Res.dVec, Res.dOut, Res.dVal, Res.dCols,
     Res.kernScalar, Res.kernVector, Res.prog]
  else if (passLoop vectorOk passes 0).length < passes then []
  else
    [Res.dRowMeta, Res.dVec, Res.dOut, Res.dVal, Res.dCols,
     Res.kernScalar, Res.kernVector, Res.prog]

/-- C6 is violated: with one pass whose verification fails, ellPackTest
and csrTest release none of their setup-phase resources, and even a fully
successful ellPackTest never frees the h_valcm and h_colscm host arrays
(the comma-operator delete at line 349 frees only h_rowLengths). -/
theorem release_leak_on_failure :
    ellPackReleased 1 (fun _ => false) = [] ∧
    Res.dVal ∈ ellPackAllocated ∧
    csrReleased 1 64 (fun _ => false) (fun _ => true) = [] ∧
    Res.dVal ∈ csrAllocated ∧
    csrReleased 1 64 (fun _ => true) (fun _ => false) = [] ∧
    Res.hValcm ∈ ellPackAllocated ∧
    Res.hValcm ∉ ellPackReleased 1 (fun _ => true) ∧
    Res.hColscm ∉ ellPackReleased 1 (fun _ => true) := by
  decide

/-! ## ELLPACKR setup (ellPackTest, Spmv.c lines 165-185) -/

/-- Row length of row k: `h_rowDelimiters[k+1] - h_rowDelimiters[k]`
(Spmv.c line 169). -/
def rowLen (rd : List ℕ) (k : ℕ) : ℕ := rd.getD (k + 1) 0 - rd.getD k 0

/-- h_rowLengths (Spmv.c lines 165-178): paddedSize entries; entry k is
the row length for k below numRows and 0 for the pad rows. -/
def rowLengthsArr (rd : List ℕ) (numRows paddedSize : ℕ) : List ℕ :=
  (List.range paddedSize).map (fun k => if k < numRows then rowLen rd k else 0)

/-- maxrl (Spmv.c lines 166-174): running maximum of the first numRows
row lengths, starting from 0. -/
def maxrlCalc (rd : List ℕ) (numRows : ℕ) : ℕ :=
  (List.range numRows).foldl
    (fun m k => if rowLen rd k > m then rowLen rd k else m) 0

/-- cmSize (Spmv.c line 181): `padded ? paddedSize : numRows`. -/
def cmSizeOf (padded : Bool) (paddedSize numRows : ℕ) : ℕ :=
  if padded then paddedSize else numRows

/-- Modelled from the spec: the definition of convertToColMajor is not
under src/ (only its call at Spmv.c line 184 is); per the spec, entry
(row r, slot k) of the column-major value array lives at linear index
k*stride + r, holds the k-th value of row r for k below the row length,
and every unfilled slot is initialized to value 0. -/
def convertToColMajorVal (val : List ℚ) (rd rowLengths : List ℕ)
    (numRows maxrl cmSize : ℕ) : List ℚ :=
  (List.range (maxrl * cmSize)).map (fun idx =>
    if idx % cmSize < numRows ∧ idx / cmSize < rowLengths.getD (idx % cmSize) 0
    then val.getD (rd.getD (idx % cmSize) 0 + idx / cmSize) 0
    else 0)

/-- Modelled from the spec: the column-index counterpart of
`convertToColMajorVal`; unfilled slots hold column index 0. -/
def convertToColMajorCols (cols : List ℕ) (rd rowLengths : List ℕ)
    (numRows maxrl cmSize : ℕ) : List ℕ :=
  (List.range (maxrl * cmSize)).map (fun idx =>
    if idx % cmSize < numRows ∧ idx / cmSize < rowLengths.getD (idx % cmSize) 0
    then cols.getD (rd.getD (idx % cmSize) 0 + idx / cmSize) 0
    else 0)

/-- h_valcm as built by ellPackTest (allocation of size maxrl * cmSize at
Spmv.c line 182, filled by convertToColMajor at line 184). -/
def ellPackValcm (val : List ℚ) (rd : List ℕ)
    (numRows paddedSize : ℕ) (padded : Bool) : List ℚ :=
  convertToColMajorVal val rd (rowLengthsArr rd numRows paddedSize) numRows
    (maxrlCalc rd numRows) (cmSizeOf padded paddedSize numRows)

/-- h_colscm as built by ellPackTest (allocation at Spmv.c line 183,
filled at line 184). -/
def ellPackColscm (cols rd : List ℕ)
    (numRows paddedSize : ℕ) (padded : Bool) : List ℕ :=
  convertToColMajorCols cols rd (rowLengthsArr rd numRows paddedSize) numRows
    (maxrlCalc rd numRows) (cmSizeOf padded paddedSize numRows)

theorem foldl_runmax_le (f : ℕ → ℕ) :
    ∀ (l : List ℕ) (acc : ℕ),
      acc ≤ l.foldl (fun m k => if f k > m then f k else m) acc ∧
      ∀ k ∈ l, f k ≤ l.foldl (fun m k => if f k > m then f k else m) acc := by
  intro l
  induction l with
  | nil =>
    intro acc
    exact ⟨le_refl _, fun k hk => absurd hk (List.not_mem_nil k)⟩
  | cons a l ih =>
    intro acc
    simp only [List.foldl_cons]
    refine ⟨le_trans (by split <;> omega) (ih _).1, fun k hk => ?_⟩
    rcases List.mem_cons.mp hk with rfl | hk
    · exact le_trans (by split <;> omega) (ih _).1
    · exact (ih _).2 k hk

theorem foldl_runmax_attained (f : ℕ → ℕ) :
    ∀ (l : List ℕ) (acc : ℕ),
      l.foldl (fun m k => if f k > m then f k else m) acc = acc ∨
      ∃ k ∈ l, l.foldl (fun m k => if f k > m then f k else m) acc = f k := by
  intro l
  induction l with
  | nil =>
    intro acc
    exact Or.inl rfl
  | cons a l ih =>
    intro acc
    simp only [List.foldl_cons]
    rcases ih (if f a > acc then f a else acc) with h | ⟨k, hk, h⟩
    · by_cases hfa : f a > acc
      · exact Or.inr ⟨a, List.mem_cons_self a l, by rw [h, if_pos hfa]⟩
      · exact Or.inl (by rw [h, if_neg hfa])
    · exact Or.inr ⟨k, List.mem_cons_of_mem a hk, h⟩

theorem pad_slot_default {α : Type} (g : ℕ → α) (z : α) (rowLengths : List ℕ)
    (numRows maxrl cmSize r k : ℕ) (hr : r < cmSize) (hk : k < maxrl)
    (hlen : rowLengths.getD r 0 ≤ k) :
    ((List.range (maxrl * cmSize)).map (fun idx =>
      if idx % cmSize < numRows ∧ idx / cmSize < rowLengths.getD (idx % cmSize) 0
      then g idx else z)).getD (k * cmSize + r) z = z := by
  have hcm : 0 < cmSize := lt_of_le_of_lt (Nat.zero_le r) hr
  have hidx : k * cmSize + r < maxrl * cmSize := by
    calc k * cmSize + r < k * cmSize + cmSize := by omega
      _ = (k + 1) * cmSize := by ring
      _ ≤ maxrl * cmSize := Nat.mul_le_mul_right _ hk
  rw [getD_map_range _ _ hidx]
  have hmod : (k * cmSize + r) % cmSize = r := by
    rw [Nat.add_comm, Nat.add_mul_mod_self_right]
    exact Nat.mod_eq_of_lt hr
  have hdivk : (k * cmSize + r) / cmSize = k := by
    have h1 : k * cmSize + r = cmSize * k + r := by ring
    rw [h1, Nat.mul_add_div hcm, Nat.div_eq_of_lt hr]
    omega
  rw [hmod, hdivk, if_neg]
  intro hand
  omega

/-- C3 counterexample: RunTest invokes ellPackTest with padded = false
(Spmv.c lines 848-851 and 868-871) and paddedSize strictly above numRows,
and then cmSize = numRows (line 181), so the column-major arrays get
maxrl * numRows elements, not the maxrl * numRowsPadded the claim states:
for a 1-row matrix with one entry and numRowsPadded = 32 the value array
has 1 element, not 32. -/
theorem ellPack_alloc_counterexample :
    (1 : ℕ) ≤ 32 ∧
    (ellPackValcm [(5 : ℚ)] [0, 1] 1 32 false).length = 1 ∧
    maxrlCalc [0, 1] 1 * 32 = 32 ∧
    (1 : ℕ) ≠ 32 := by
  refine ⟨by decide, ?_, by decide, by decide⟩
  rfl

/-- C3 (amended): for a well-formed CSR matrix and numRowsPadded at least
numRows, the ELLPACKR setup of ellPackTest builds rowLength with
numRowsPadded entries, rowLength[i] = rowOffsets[i+1] - rowOffsets[i] for
i below numRows and 0 for the pad rows; maxRowLength is the maximum of
all the rowLength entries; the column-major value and column arrays have
exactly maxRowLength * cmSize elements where cmSize is numRowsPadded when
the padded flag is set and numRows otherwise (the flag is false in the
actual RunTest invocation); and every unfilled slot holds value 0 and
column index 0. -/
theorem ellPackSetup_correct (val : List ℚ) (cols rd : List ℕ)
    (numRows numCols paddedSize : ℕ) (padded : Bool)
    (_hwf : CSRWellFormed val cols rd numRows numCols)
    (hle : numRows ≤ paddedSize) :
    (∀ i, i < numRows →
      (rowLengthsArr rd numRows paddedSize).getD i 0
        = rd.getD (i + 1) 0 - rd.getD i 0) ∧
    (∀ i, numRows ≤ i → i < paddedSize →
      (rowLengthsArr rd numRows paddedSize).getD i 0 = 0) ∧
    (rowLengthsArr rd numRows paddedSize).length = paddedSize ∧
    (∀ i, i < paddedSize →
      (rowLengthsArr rd numRows paddedSize).getD i 0 ≤ maxrlCalc rd numRows) ∧
    (maxrlCalc rd numRows = 0 ∨
      ∃ i, i < numRows ∧ rowLen rd i = maxrlCalc rd numRows) ∧
    (ellPackValcm val rd numRows paddedSize padded).length
      = maxrlCalc rd numRows * cmSizeOf padded paddedSize numRows ∧
    (ellPackColscm cols rd numRows paddedSize padded).length
      = maxrlCalc rd numRows * cmSizeOf padded paddedSize numRows ∧
    cmSizeOf padded paddedSize numRows
      = (if padded then paddedSize else numRows) ∧
    (∀ r k, r < cmSizeOf padded paddedSize numRows →
      k < maxrlCalc rd numRows →
      (rowLengthsArr rd numRows paddedSize).getD r 0 ≤ k →
      (ellPackValcm val rd numRows paddedSize padded).getD
          (k * cmSizeOf padded paddedSize numRows + r) 0 = 0 ∧
      (ellPackColscm cols rd numRows paddedSize padded).getD
          (k * cmSizeOf padded paddedSize numRows + r) 0 = 0) := by
  refine ⟨?_, ?_, ?_, ?_, ?_, ?_, ?_, rfl, ?_⟩
  · intro i hi
    rw [rowLengthsArr, getD_map_range _ _ (lt_of_lt_of_le hi hle), if_pos hi]
    rfl
  · intro i hi1 hi2
    rw [rowLengthsArr, getD_map_range _ _ hi2, if_neg (not_lt.mpr hi1)]
  · rw [rowLengthsArr, List.length_map, List.length_range]
  · intro i hi
    rw [rowLengthsArr, getD_map_range _ _ hi]
    by_cases hin : i < numRows
    · rw [if_pos hin]
      exact (foldl_runmax_le (rowLen rd) (List.range numRows) 0).2 i
        (List.mem_range.mpr hin)
    · rw [if_neg hin]
      exact Nat.zero_le _
  · rcases foldl_runmax_attained (rowLen rd) (List.range numRows) 0 with h | ⟨i, hi, h⟩
    · exact Or.inl h
    · exact Or.inr ⟨i, List.mem_range.mp hi, h.symm⟩
  · rw [ellPackValcm, convertToColMajorVal, List.length_map, List.length_range]
  · rw [ellPackColscm, convertToColMajorCols, List.length_map, List.length_range]
  · intro r k hr hk hlen
    constructor
    · rw [ellPackValcm, convertToColMajorVal]
      exact pad_slot_default _ 0 _ _ _ _ _ _ hr hk hlen
    · rw [ellPackColscm, convertToColMajorCols]
      exact pad_slot_default _ 0 _ _ _ _ _ _ hr hk hlen

/-- C3 witness: the scenario-3 matrix with row lengths [1,3,0,2], padded
to 6 rows with the padded flag set. -/
theorem ellPackSetup_correct_witness :
    CSRWellFormed [(1 : ℚ), 2, 3, 4, 5, 6] [0, 0, 1, 2, 0, 3] [0, 1, 4, 4, 6] 4 4 ∧
    4 ≤ 6 ∧
    ((∀ i, i < 4 →
      (rowLengthsArr [0, 1, 4, 4, 6] 4 6).getD i 0
        = ([0, 1, 4, 4, 6] : List ℕ).getD (i + 1) 0 - ([0, 1, 4, 4, 6] : List ℕ).getD i 0) ∧
    (∀ i, 4 ≤ i → i < 6 → (rowLengthsArr [0, 1, 4, 4, 6] 4 6).getD i 0 = 0) ∧
    (rowLengthsArr [0, 1, 4, 4, 6] 4 6).length = 6 ∧
    (∀ i, i < 6 →
      (rowLengthsArr [0, 1, 4, 4, 6] 4 6).getD i 0 ≤ maxrlCalc [0, 1, 4, 4, 6] 4) ∧
    (maxrlCalc [0, 1, 4, 4, 6] 4 = 0 ∨
      ∃ i, i < 4 ∧ rowLen [0, 1, 4, 4, 6] i = maxrlCalc [0, 1, 4, 4, 6] 4) ∧
    (ellPackValcm [(1 : ℚ), 2, 3, 4, 5, 6] [0, 1, 4, 4, 6] 4 6 true).length
      = maxrlCalc [0, 1, 4, 4, 6] 4 * cmSizeOf true 6 4 ∧
    (ellPackColscm [0, 0, 1, 2, 0, 3] [0, 1, 4, 4, 6] 4 6 true).length
      = maxrlCalc [0, 1, 4, 4, 6] 4 * cmSizeOf true 6 4 ∧
    cmSizeOf true 6 4 = (if true then 6 else 4) ∧
    (∀ r k, r < cmSizeOf true 6 4 → k < maxrlCalc [0, 1, 4, 4, 6] 4 →
      (rowLengthsArr [0, 1, 4, 4, 6] 4 6).getD r 0 ≤ k →
      (ellPackValcm [(1 : ℚ), 2, 3, 4, 5, 6] [0, 1, 4, 4, 6] 4 6 true).getD
          (k * cmSizeOf true 6 4 + r) 0 = 0 ∧
      (ellPackColscm [0, 0, 1, 2, 0, 3] [0, 1, 4, 4, 6] 4 6 true).getD
          (k * cmSizeOf true 6 4 + r) 0 = 0)) :=
  ⟨by decide, by decide,
   ellPackSetup_correct [(1 : ℚ), 2, 3, 4, 5, 6] [0, 0, 1, 2, 0, 3]
     [0, 1, 4, 4, 6] 4 4 6 true (by decide) (by decide)⟩
